import Mathlib

/-!
Shallow embedding of the Dikastes application-policy decision server:
the rule matchers of `server/match.go` (SPIFFE identity parsing,
service-account name and label matching, HTTP method matching, and the
per-rule `match` function) and the `Check` gRPC handler.

Go protobuf pointer fields are embedded as `Option`; the nil-safe `GetX`
accessors are embedded as functions on `Option` returning the zero value
on `none`, exactly as the generated Go getters do.  External
collaborators (the Calico label-selector library, the Calico query used
by the handler, the `checkPolicies` combiner which is repository code
outside the matcher file) are taken as explicit function parameters.
-/

namespace AppPolicy

/-- Label maps (`map[string]string` in Go); opaque to the matchers, only
ever handed to the selector evaluator. -/
abbrev Labels := List (String × String)

/-- `authz.AttributeContext_Peer`: attested principal plus peer labels. -/
structure AttributeContext_Peer where
  principal : String
  labels : Labels

/-- `authz.AttributeContext_HTTPRequest`: the request's HTTP method. -/
structure AttributeContext_HTTPRequest where
  method : String

/-- `authz.AttributeContext_Request`: optional HTTP attributes. -/
structure AttributeContext_Request where
  http : Option AttributeContext_HTTPRequest

/-- `authz.AttributeContext`: source peer and request attributes. -/
structure AttributeContext where
  source : Option AttributeContext_Peer
  request : Option AttributeContext_Request

/-- `authz.CheckRequest`: the input of one authorization check. -/
structure CheckRequest where
  attributes : Option AttributeContext

/-- Nil-safe `attr.GetSource()`. -/
def getSource : Option AttributeContext → Option AttributeContext_Peer
  | none => none
  | some a => a.source

/-- Nil-safe `attr.GetRequest()`. -/
def getRequest : Option AttributeContext → Option AttributeContext_Request
  | none => none
  | some a => a.request

/-- Nil-safe `peer.GetPrincipal()` (empty string on nil). -/
def getPrincipal : Option AttributeContext_Peer → String
  | none => ""
  | some p => p.principal

/-- Nil-safe `peer.GetLabels()` (empty map on nil). -/
def getLabels : Option AttributeContext_Peer → Labels
  | none => []
  | some p => p.labels

/-- Nil-safe `req.GetHttp()`. -/
def getHttp : Option AttributeContext_Request → Option AttributeContext_HTTPRequest
  | none => none
  | some r => r.http

/-- Nil-safe `http.GetMethod()` (empty string on nil). -/
def getMethod : Option AttributeContext_HTTPRequest → String
  | none => ""
  | some h => h.method

/-- `api.ServiceAccountMatch`: explicit name list plus label-selector
expression. -/
structure ServiceAccountMatch where
  names : List String
  selector : String

/-- `api.EntityRule`, restricted to the one field `match.go` reads. -/
structure EntityRule where
  serviceAccounts : Option ServiceAccountMatch

/-- `api.HTTPRule`: the list of permitted methods. -/
structure HTTPRule where
  methods : List String

/-- `api.Rule`, restricted to the fields `match.go` reads
(`rule.Source` and `rule.HTTP`). -/
structure Rule where
  source : EntityRule
  http : Option HTTPRule

/-- The external Calico label-selector collaborator
(`selector.Parse` returning an evaluator, `none` on a parse error).
Taken as a parameter: its code is an external library, consumed by
`matchServiceAccountLabels` as a predicate over label maps. -/
structure SelectorLib where
  parse : String → Option (Labels → Bool)

/- ### SPIFFE identity parsing

`parseSpiffeId` applies the anchored pattern
`^spiffe://[^/]+/ns/([^/]+)/sa/([^/]+)$` and returns
(capture 2, capture 1) = (service-account name, namespace).
The regular expression is embedded directly: the three `[^/]+` segments
are maximal nonempty runs of non-slash characters separated by the
literal pieces below, anchored at both ends. -/

/-- The literal piece `spiffe://` of the pattern. -/
def spiffePre : List Char := ['s', 'p', 'i', 'f', 'f', 'e', ':', '/', '/']

/-- The literal piece `/ns/` of the pattern. -/
def nsSep : List Char := ['/', 'n', 's', '/']

/-- The literal piece `/sa/` of the pattern. -/
def saSep : List Char := ['/', 's', 'a', '/']

/-- The character class `[^/]`. -/
def noSlash (c : Char) : Bool := c != '/'

/-- Strip an expected literal piece from the front of the input;
`none` when the input does not start with it. -/
def stripPref : List Char → List Char → Option (List Char)
  | [], cs => some cs
  | _ :: _, [] => none
  | p :: ps, c :: cs => if c = p then stripPref ps cs else none

/-- The pattern match of `parseSpiffeId`, on character lists.  Returns
`(name, namespace)` on success, mirroring the Go return order. -/
def parseSpiffeIdList (cs : List Char) : Option (List Char × List Char) :=
  match stripPref spiffePre cs with
  | none => none
  | some r1 =>
    let dom := r1.takeWhile noSlash
    let r2 := r1.dropWhile noSlash
    if dom.isEmpty then none
    else
      match stripPref nsSep r2 with
      | none => none
      | some r3 =>
        let ns := r3.takeWhile noSlash
        let r4 := r3.dropWhile noSlash
        if ns.isEmpty then none
        else
          match stripPref saSep r4 with
          | none => none
          | some r5 =>
            if r5.isEmpty then none
            else if r5.all noSlash then some (r5, ns) else none

/-- `parseSpiffeId` of `match.go`: extract the service-account name and
namespace from an Istio SPIFFE ID.  Failure (the Go non-nil error) is
`none`. -/
def parseSpiffeId (id : String) : Option (String × String) :=
  match parseSpiffeIdList id.data with
  | none => none
  | some (nm, ns) => some (⟨nm⟩, ⟨ns⟩)

/-- `matchServiceAccountName` of `match.go`: an empty name list matches
everything, otherwise the loop looks for an exactly equal entry. -/
def nameLoop : List String → String → Bool
  | [], _ => false
  | n2 :: rest, n => if n2 = n then true else nameLoop rest n

/-- `matchServiceAccountName(names, name)`. -/
def matchServiceAccountName (names : List String) (name : String) : Bool :=
  if names.length = 0 then true else nameLoop names name

/-- `matchServiceAccountLabels(selectorStr, labels)`: parse the selector
with the external library; a parse failure is `false` (fail-closed),
otherwise evaluate the selector on the labels. -/
def matchServiceAccountLabels (lib : SelectorLib) (selectorStr : String)
    (labels : Labels) : Bool :=
  match lib.parse selectorStr with
  | none => false
  | some sel => sel labels

/-- `matchServiceAccounts(saMatch, peer)`: parse the peer principal as a
SPIFFE ID first — a parse failure is `false` even when `saMatch` is nil;
then a nil `saMatch` matches, and otherwise both the name list and the
selector must match. -/
def matchServiceAccounts (lib : SelectorLib) (saMatch : Option ServiceAccountMatch)
    (peer : Option AttributeContext_Peer) : Bool :=
  let principle := getPrincipal peer
  let labels := getLabels peer
  match parseSpiffeId principle with
  | none => false
  | some (accountName, _namespace) =>
    match saMatch with
    | none => true
    | some sa =>
      matchServiceAccountName sa.names accountName &&
        matchServiceAccountLabels lib sa.selector labels

/-- `matchPeer(er, peer)`. -/
def matchPeer (lib : SelectorLib) (er : EntityRule)
    (peer : Option AttributeContext_Peer) : Bool :=
  matchServiceAccounts lib er.serviceAccounts peer

/-- The loop of `matchHTTPMethods`: first entry equal to `"*"` or to the
request method returns true; falling off the end returns false. -/
def methodLoop : List String → String → Bool
  | [], _ => false
  | m :: rest, reqMethod =>
    if m = "*" then true
    else if m = reqMethod then true
    else methodLoop rest reqMethod

/-- `matchHTTPMethods(methods, reqMethod)`: an empty method list matches
everything. -/
def matchHTTPMethods (methods : List String) (reqMethod : String) : Bool :=
  if methods.length = 0 then true else methodLoop methods reqMethod

/-- `matchHTTP(rule, req)`: a nil HTTP rule matches everything. -/
def matchHTTP (rule : Option HTTPRule)
    (req : Option AttributeContext_HTTPRequest) : Bool :=
  match rule with
  | none => true
  | some r => matchHTTPMethods r.methods (getMethod req)

/-- `matchRequest(rule, req)`. -/
def matchRequest (rule : Rule) (req : Option AttributeContext_Request) : Bool :=
  matchHTTP rule.http (getHttp req)

/-- `match(rule, req)` of `match.go` (named `matchRule` here because
`match` is a Lean keyword): true iff the rule matches the request. -/
def matchRule (lib : SelectorLib) (rule : Rule) (req : CheckRequest) : Bool :=
  let attr := req.attributes
  matchPeer lib rule.source (getSource attr) && matchRequest rule (getRequest attr)

/- ### The Check handler -/

/-- `status.Status`, reduced to its code (`google.rpc.Status`). -/
structure Status where
  code : Int
  deriving DecidableEq

/-- `code.Code_value["INTERNAL"]`. -/
def INTERNAL_CODE : Int := 13

/-- `authz.CheckResponse`, reduced to the status the handler sets. -/
structure CheckResponse where
  status : Status
  deriving DecidableEq

/-- The `Check` handler of `auth_server`.  The collaborators —
`getContainerFromContext`, the Calico query's `GetEndpointFromContainer`
(which returns name, namespace and a possible error; on error the
handler only logs and keeps using the returned name and namespace) and
`GetPolicies`, and the rule-evaluation combiner `checkPolicies` — are
repository code outside `match.go` and are taken as parameters.  The
response starts as `INTERNAL` and is overwritten only after a successful
policy fetch; the returned transport error is always nil (`none`). -/
def Check {Ctx Policy : Type}
    (getContainerFromContext : Ctx → Except String String)
    (getEndpointFromContainer : String → String → String × String × Option String)
    (getPolicies : String → String → Except String (List Policy))
    (checkPolicies : List Policy → CheckRequest → Status)
    (nodeName : String) (ctx : Ctx) (req : CheckRequest) :
    CheckResponse × Option String :=
  let resp : CheckResponse := { status := { code := INTERNAL_CODE } }
  match getContainerFromContext ctx with
  | .error _ => (resp, none)
  | .ok cid =>
    match getEndpointFromContainer cid nodeName with
    | (epName, epNamespace, _epErr) =>
      match getPolicies epName epNamespace with
      | .error _ => (resp, none)
      | .ok policies => ({ status := checkPolicies policies req }, none)

/- ### Helper lemmas -/

/-- `stripPref` succeeds exactly when the input starts with the literal. -/
theorem stripPref_eq_some (ps : List Char) :
    ∀ cs r, stripPref ps cs = some r ↔ cs = ps ++ r := by
  induction ps with
  | nil => intro cs r; simp [stripPref]
  | cons p ps ih =>
    intro cs r
    cases cs with
    | nil => simp [stripPref]
    | cons c cs =>
      simp only [stripPref]
      by_cases hc : c = p
      · subst hc
        simp [ih]
      · simp [hc]

/-- Stripping a literal from the literal followed by anything. -/
theorem stripPref_append (ps r : List Char) : stripPref ps (ps ++ r) = some r :=
  (stripPref_eq_some ps (ps ++ r) r).mpr rfl

/-- The slash never satisfies the character class. -/
theorem noSlash_slash : noSlash '/' = false := by decide

/-- `noSlash` decides being a non-slash character. -/
theorem noSlash_iff (c : Char) : noSlash c = true ↔ c ≠ '/' := by
  simp [noSlash]

/-- `takeWhile`/`dropWhile` on a run of satisfying characters followed by
a failing one split exactly at the failing character. -/
theorem span_append (p : Char → Bool) (a : List Char) (x : Char) (b : List Char)
    (ha : ∀ c ∈ a, p c = true) (hx : p x = false) :
    (a ++ x :: b).takeWhile p = a ∧ (a ++ x :: b).dropWhile p = x :: b := by
  induction a with
  | nil =>
    simp [List.takeWhile_cons, List.dropWhile_cons, hx]
  | cons c a ih =>
    have hc : p c = true := ha c (List.mem_cons_self c a)
    have ih' := ih fun d hd => ha d (List.mem_cons_of_mem c hd)
    simp [List.takeWhile_cons, List.dropWhile_cons, hc, ih'.1, ih'.2]

/-- Characterization of the list-level SPIFFE pattern match: it succeeds
with `(name, namespace)` exactly on inputs that are the concatenation of
`spiffe://`, a nonempty slash-free domain, `/ns/`, the namespace, `/sa/`
and the name, the last two nonempty and slash-free. -/
theorem parseSpiffeIdList_eq_some (cs n s : List Char) :
    parseSpiffeIdList cs = some (n, s) ↔
      ∃ dom, cs = spiffePre ++ (dom ++ (nsSep ++ (s ++ (saSep ++ n)))) ∧
        dom ≠ [] ∧ (∀ c ∈ dom, noSlash c = true) ∧
        s ≠ [] ∧ (∀ c ∈ s, noSlash c = true) ∧
        n ≠ [] ∧ (∀ c ∈ n, noSlash c = true) := by
  constructor
  · intro h
    simp only [parseSpiffeIdList] at h
    split at h
    · exact absurd h (by simp)
    next r1 hsp =>
    split at h
    · exact absurd h (by simp)
    next hdom =>
    split at h
    · exact absurd h (by simp)
    next r3 hns =>
    split at h
    · exact absurd h (by simp)
    next hnsE =>
    split at h
    · exact absurd h (by simp)
    next r5 hsa =>
    split at h
    · exact absurd h (by simp)
    next hr5E =>
    split at h
    · next hall =>
      simp only [Option.some.injEq, Prod.mk.injEq] at h
      obtain ⟨h1, h2⟩ := h
      subst h1
      subst h2
      refine ⟨r1.takeWhile noSlash, ?_, ?_, ?_, ?_, ?_, ?_, ?_⟩
      · have e1 : cs = spiffePre ++ r1 := (stripPref_eq_some _ _ _).mp hsp
        have e2 : r1.takeWhile noSlash ++ r1.dropWhile noSlash = r1 :=
          List.takeWhile_append_dropWhile noSlash r1
        have e3 : r1.dropWhile noSlash = nsSep ++ r3 := (stripPref_eq_some _ _ _).mp hns
        have e4 : r3.takeWhile noSlash ++ r3.dropWhile noSlash = r3 :=
          List.takeWhile_append_dropWhile noSlash r3
        have e5 : r3.dropWhile noSlash = saSep ++ r5 := (stripPref_eq_some _ _ _).mp hsa
        conv_lhs => rw [e1, ← e2, e3, ← e4, e5]
      · simpa [List.isEmpty_iff] using hdom
      · exact fun c hc => List.mem_takeWhile_imp hc
      · simpa [List.isEmpty_iff] using hnsE
      · exact fun c hc => List.mem_takeWhile_imp hc
      · simpa [List.isEmpty_iff] using hr5E
      · exact List.all_eq_true.mp hall
    · exact absurd h (by simp)
  · rintro ⟨dom, rfl, hdomne, hdomm, hsne, hsm, hnne, hnm⟩
    have hspan1 :
        (dom ++ (nsSep ++ (s ++ (saSep ++ n)))).takeWhile noSlash = dom ∧
        (dom ++ (nsSep ++ (s ++ (saSep ++ n)))).dropWhile noSlash =
          nsSep ++ (s ++ (saSep ++ n)) :=
      span_append noSlash dom '/' (['n', 's', '/'] ++ (s ++ (saSep ++ n))) hdomm
        noSlash_slash
    have hspan2 :
        (s ++ (saSep ++ n)).takeWhile noSlash = s ∧
        (s ++ (saSep ++ n)).dropWhile noSlash = saSep ++ n :=
      span_append noSlash s '/' (['s', 'a', '/'] ++ n) hsm noSlash_slash
    simp only [parseSpiffeIdList, stripPref_append]
    rw [hspan1.1, hspan1.2]
    simp only [stripPref_append]
    rw [hspan2.1, hspan2.2]
    simp only [stripPref_append]
    simp [List.isEmpty_eq_false.mpr hdomne, List.isEmpty_eq_false.mpr hsne,
      List.isEmpty_eq_false.mpr hnne, List.all_eq_true.mpr hnm]

/-- Data of a string built from a character list. -/
theorem data_mk (l : List Char) : (String.mk l).data = l := rfl

/-- Data of the empty string literal. -/
theorem empty_data : ("" : String).data = [] := rfl

/-- Data of the literal `spiffe://`. -/
theorem spiffe_lit : "spiffe://".data = spiffePre := rfl

/-- Data of the literal `/ns/`. -/
theorem ns_lit : "/ns/".data = nsSep := rfl

/-- Data of the literal `/sa/`. -/
theorem sa_lit : "/sa/".data = saSep := rfl

/-- `parseSpiffeId` success is the list-level pattern match on the
string's data. -/
theorem parseSpiffeId_eq_some (id nm ns : String) :
    parseSpiffeId id = some (nm, ns) ↔
      parseSpiffeIdList id.data = some (nm.data, ns.data) := by
  unfold parseSpiffeId
  cases h : parseSpiffeIdList id.data with
  | none => simp
  | some p =>
    cases p with
    | mk a b =>
      simp [String.ext_iff]

/-- A nonempty slash-free segment of the SPIFFE pattern. -/
def segOk (x : String) : Prop := x ≠ "" ∧ ∀ c ∈ x.data, c ≠ '/'

/-- The method loop returns true exactly when some entry is the wildcard
or equals the request method. -/
theorem methodLoop_eq_true (methods : List String) (m : String) :
    methodLoop methods m = true ↔ ∃ x ∈ methods, x = "*" ∨ x = m := by
  induction methods with
  | nil => simp [methodLoop]
  | cons a rest ih =>
    simp only [methodLoop]
    by_cases h1 : a = "*"
    · subst h1
      simp
    · rw [if_neg h1]
      by_cases h2 : a = m
      · subst h2
        simp
      · rw [if_neg h2]
        simp [ih, h1, h2]

/-- The name loop is list membership. -/
theorem nameLoop_eq_true (names : List String) (n : String) :
    nameLoop names n = true ↔ n ∈ names := by
  induction names with
  | nil => simp [nameLoop]
  | cons a rest ih =>
    simp only [nameLoop]
    by_cases h : a = n
    · subst h
      simp
    · rw [if_neg h]
      simp [ih, Ne.symm h]

/- ### Concrete values used by witnesses and counterexamples -/

/-- A selector library whose parse always succeeds with a match-all
evaluator. -/
def trueLib : SelectorLib := ⟨fun _ => some fun _ => true⟩

/-- A selector library whose parse always fails. -/
def noneLib : SelectorLib := ⟨fun _ => none⟩

/-- A peer whose principal is a well-formed SPIFFE ID. -/
def goodPeer : AttributeContext_Peer :=
  ⟨"spiffe://cluster.local/ns/foo/sa/bar", [("role", "web")]⟩

/-- A peer whose principal is not a SPIFFE ID. -/
def badPeer : AttributeContext_Peer := ⟨"not-a-spiffe-id", []⟩

/-- The fully-permissive rule: no service-account constraint, no HTTP
constraint. -/
def ruleAll : Rule := ⟨⟨none⟩, none⟩

/-- A check request carrying just the given peer. -/
def reqOf (p : AttributeContext_Peer) : CheckRequest := ⟨some ⟨some p, none⟩⟩

/-- Collaborators for the handler at concrete inputs: container lookup
succeeds. -/
def g0 : Unit → Except String String := fun _ => .ok "cid0"

/-- Endpoint resolution fails, returning empty name and namespace
alongside the error. -/
def ge0 : String → String → String × String × Option String :=
  fun _ _ => ("", "", some "resolve failed")

/-- The policy fetch succeeds and returns one policy. -/
def gp0 : String → String → Except String (List Unit) := fun _ _ => .ok [()]

/-- A combiner that distinguishes an empty policy list from a nonempty
one. -/
def cp0 : List Unit → CheckRequest → Status :=
  fun ps _ => if ps.isEmpty then ⟨7⟩ else ⟨0⟩

/-- A request with absent attributes. -/
def req0 : CheckRequest := ⟨none⟩

/- ### Claim theorems -/

/-- Claim C1, as stated, is false on the code: `matchServiceAccounts`
parses the peer principal before looking at `saMatch`, so a rule with
absent `ServiceAccountMatch` and absent `http` does not match a request
whose principal fails to parse.  Concretely, for the fully-permissive
rule and the peer principal `not-a-spiffe-id`, the rule does not match
although the claim asserts it matches regardless of parseability. -/
theorem c1_counterexample :
    parseSpiffeId (getPrincipal (getSource (reqOf badPeer).attributes)) = none ∧
    matchRule noneLib ruleAll (reqOf badPeer) = false := by
  decide

/-- Claim C1 (amended): when the peer principal parses as a SPIFFE
identity, `matchServiceAccounts` returns true unconditionally for an
absent `ServiceAccountMatch`; consequently a rule with absent
`source.serviceAccountMatch` and absent `http` matches every request
whose peer principal parses. -/
theorem c1_amended (lib : SelectorLib) (peer : Option AttributeContext_Peer)
    (nm ns : String) (h : parseSpiffeId (getPrincipal peer) = some (nm, ns)) :
    matchServiceAccounts lib none peer = true ∧
    ∀ req : CheckRequest, getSource req.attributes = peer →
      matchRule lib { source := ⟨none⟩, http := none } req = true := by
  constructor
  · simp [matchServiceAccounts, h]
  · intro req hreq
    simp [matchRule, matchPeer, matchRequest, matchHTTP, hreq, matchServiceAccounts, h]

/-- Witness for C1 at the SPIFFE ID `spiffe://cluster.local/ns/foo/sa/bar`. -/
theorem c1_witness :
    matchServiceAccounts noneLib none (some goodPeer) = true ∧
    matchRule noneLib { source := ⟨none⟩, http := none } (reqOf goodPeer) = true := by
  have h := c1_amended noneLib (some goodPeer) "bar" "foo" (by decide)
  exact ⟨h.1, h.2 (reqOf goodPeer) rfl⟩

/-- Claim C2: the rule evaluator is the conjunction of the peer matcher
and the request matcher; the peer matcher is false whenever the
principal fails to parse, and then the whole rule does not match.  The
embedding is a total function, so no exception propagates. -/
theorem c2_match_conjunction (lib : SelectorLib) (rule : Rule) (req : CheckRequest) :
    matchRule lib rule req =
      (matchPeer lib rule.source (getSource req.attributes) &&
        matchRequest rule (getRequest req.attributes)) ∧
    (∀ er peer, parseSpiffeId (getPrincipal peer) = none →
      matchPeer lib er peer = false) ∧
    (parseSpiffeId (getPrincipal (getSource req.attributes)) = none →
      matchRule lib rule req = false) := by
  refine ⟨rfl, ?_, ?_⟩
  · intro er peer h
    simp [matchPeer, matchServiceAccounts, h]
  · intro h
    simp [matchRule, matchPeer, matchServiceAccounts, h]

/-- Witness for C2: a request with absent attributes has the empty
principal, which does not parse, so no rule matches it. -/
theorem c2_witness : matchRule noneLib ruleAll req0 = false :=
  (c2_match_conjunction noneLib ruleAll req0).2.2 (by decide)

/-- Claim C3: `matchHTTP` is true for an absent rule, true for an empty
method list, true exactly when some entry equals `"*"` or equals the
request method, and false otherwise; a wildcard anywhere in the list
matches every method. -/
theorem c3_matchHTTP_characterization (rule : Option HTTPRule)
    (req : Option AttributeContext_HTTPRequest) :
    (matchHTTP rule req = true ↔
      rule = none ∨ ∃ r, rule = some r ∧
        (r.methods = [] ∨ ∃ m ∈ r.methods, m = "*" ∨ m = getMethod req)) ∧
    (∀ r, rule = some r → "*" ∈ r.methods → matchHTTP rule req = true) := by
  constructor
  · cases rule with
    | none => simp [matchHTTP]
    | some r =>
      simp only [matchHTTP, matchHTTPMethods]
      by_cases hlen : r.methods.length = 0
      · have hnil : r.methods = [] := List.length_eq_zero.mp hlen
        simp [hlen, hnil]
      · have hne : r.methods ≠ [] := fun hh => hlen (by simp [hh])
        rw [if_neg hlen]
        simp [methodLoop_eq_true, hne]
  · intro r hr hstar
    subst hr
    simp only [matchHTTP, matchHTTPMethods]
    have hlen : r.methods.length ≠ 0 := by
      cases hm : r.methods with
      | nil => rw [hm] at hstar; cases hstar
      | cons a t => simp [hm]
    rw [if_neg hlen]
    exact (methodLoop_eq_true _ _).mpr ⟨"*", hstar, Or.inl rfl⟩

/-- Witness for C3: a wildcard entry matches the method `DELETE`. -/
theorem c3_witness :
    matchHTTP (some ⟨["GET", "*"]⟩) (some ⟨"DELETE"⟩) = true :=
  (c3_matchHTTP_characterization (some ⟨["GET", "*"]⟩) (some ⟨"DELETE"⟩)).2
    ⟨["GET", "*"]⟩ rfl (by decide)

/-- Claim C4: `parseSpiffeId` succeeds exactly on strings of the shape
`spiffe://<domain>/ns/<namespace>/sa/<name>` with each segment nonempty
and slash-free, and then returns the name and the namespace (both
nonempty, so there is no partial identity). -/
theorem c4_parseSpiffeId_characterization (id nm ns : String) :
    parseSpiffeId id = some (nm, ns) ↔
      ∃ dom : String,
        id = "spiffe://" ++ dom ++ "/ns/" ++ ns ++ "/sa/" ++ nm ∧
        segOk dom ∧ segOk ns ∧ segOk nm := by
  rw [parseSpiffeId_eq_some, parseSpiffeIdList_eq_some]
  constructor
  · rintro ⟨dom, hcs, hd1, hd2, hs1, hs2, hn1, hn2⟩
    refine ⟨⟨dom⟩, ?_, ⟨?_, ?_⟩, ⟨?_, ?_⟩, ⟨?_, ?_⟩⟩
    · apply String.ext
      simp only [String.data_append, spiffe_lit, ns_lit, sa_lit, data_mk]
      rw [hcs]
      simp [spiffePre, nsSep, saSep, List.append_assoc]
    · simp only [ne_eq, String.ext_iff, data_mk, empty_data]
      exact hd1
    · intro c hc
      exact (noSlash_iff c).mp (hd2 c hc)
    · simp only [ne_eq, String.ext_iff, empty_data]
      exact hs1
    · intro c hc
      exact (noSlash_iff c).mp (hs2 c hc)
    · simp only [ne_eq, String.ext_iff, empty_data]
      exact hn1
    · intro c hc
      exact (noSlash_iff c).mp (hn2 c hc)
  · rintro ⟨dom, hid, ⟨hd1, hd2⟩, ⟨hs1, hs2⟩, ⟨hn1, hn2⟩⟩
    refine ⟨dom.data, ?_, ?_, ?_, ?_, ?_, ?_, ?_⟩
    · rw [hid]
      simp only [String.data_append, spiffe_lit, ns_lit, sa_lit]
      simp [spiffePre, nsSep, saSep, List.append_assoc]
    · simpa only [ne_eq, String.ext_iff, empty_data] using hd1
    · intro c hc
      exact (noSlash_iff c).mpr (hd2 c hc)
    · simpa only [ne_eq, String.ext_iff, empty_data] using hs1
    · intro c hc
      exact (noSlash_iff c).mpr (hs2 c hc)
    · simpa only [ne_eq, String.ext_iff, empty_data] using hn1
    · intro c hc
      exact (noSlash_iff c).mpr (hn2 c hc)

/-- Witness for C4: the worked examples of the specification. -/
theorem c4_witness :
    parseSpiffeId "spiffe://cluster.local/ns/foo/sa/bar" = some ("bar", "foo") ∧
    parseSpiffeId "not-a-spiffe-id" = none := by
  constructor
  · exact (c4_parseSpiffeId_characterization
      "spiffe://cluster.local/ns/foo/sa/bar" "bar" "foo").mpr
      ⟨"cluster.local", by decide, ⟨by decide, by decide⟩,
        ⟨by decide, by decide⟩, ⟨by decide, by decide⟩⟩
  · decide

/-- Claim C5: `matchServiceAccountLabels` hands the selector expression
to the external evaluator; when the evaluator parses the empty
expression to a match-all selector (the behaviour of the Calico selector
grammar, per the specification) the empty expression matches any labels;
a parse failure yields false (fail-closed) and is never propagated; on a
successful parse the result is the evaluator's verdict. -/
theorem c5_matchLabels (lib : SelectorLib) (labels : Labels) :
    ((∃ sel, lib.parse "" = some sel ∧ ∀ ls, sel ls = true) →
      matchServiceAccountLabels lib "" labels = true) ∧
    (∀ s, lib.parse s = none → matchServiceAccountLabels lib s labels = false) ∧
    (∀ s sel, lib.parse s = some sel →
      matchServiceAccountLabels lib s labels = sel labels) := by
  refine ⟨?_, ?_, ?_⟩
  · rintro ⟨sel, hp, hall⟩
    simp [matchServiceAccountLabels, hp, hall]
  · intro s h
    simp [matchServiceAccountLabels, h]
  · intro s sel h
    simp [matchServiceAccountLabels, h]

/-- Witness for C5: a match-all library accepts the empty expression; a
failing parse is fail-closed. -/
theorem c5_witness :
    matchServiceAccountLabels trueLib "" [] = true ∧
    matchServiceAccountLabels noneLib "bad selector" [] = false :=
  ⟨(c5_matchLabels trueLib []).1 ⟨fun _ => true, rfl, fun _ => rfl⟩,
   (c5_matchLabels noneLib []).2.1 "bad selector" rfl⟩

/-- Claim C6: `matchServiceAccountName` is true on the empty name list,
and on a nonempty list it is exact case-sensitive membership; the three
worked examples of the specification hold. -/
theorem c6_matchNames :
    (∀ n, matchServiceAccountName [] n = true) ∧
    (∀ names name, names ≠ [] →
      (matchServiceAccountName names name = true ↔ name ∈ names)) ∧
    matchServiceAccountName ["x"] "x" = true ∧
    matchServiceAccountName ["x"] "y" = false := by
  refine ⟨?_, ?_, by decide, by decide⟩
  · intro n
    simp [matchServiceAccountName]
  · intro names name hne
    have hlen : names.length ≠ 0 := fun hh => hne (List.length_eq_zero.mp hh)
    rw [matchServiceAccountName, if_neg hlen]
    exact nameLoop_eq_true names name

/-- Witness for C6 at the list `[x]` and the name `x`. -/
theorem c6_witness : matchServiceAccountName ["x"] "x" = true :=
  (c6_matchNames.2.1 ["x"] "x" (by decide)).mpr (by decide)

/-- Claim C7, as stated, is false on the code: when endpoint resolution
fails, `Check` does not proceed to the evaluation step with no policies;
it proceeds to the policy fetch with the name and namespace returned by
the failed resolution and evaluates whatever that fetch returns.  At the
concrete collaborators below, resolution fails, the fetch returns one
policy, and the handler's status is the combiner's verdict on that
one-element list, not its verdict on the empty list. -/
theorem c7_counterexample :
    (ge0 "cid0" "node").2.2 = some "resolve failed" ∧
    (Check g0 ge0 gp0 cp0 "node" () req0).1.status ≠ cp0 [] req0 := by
  decide

/-- Claim C7 (amended): when endpoint resolution fails, the handler does
not respond for that failure alone; it proceeds to the policy fetch with
the returned name and namespace.  A policy-fetch failure then yields an
immediate `INTERNAL` response with no rule evaluation; a successful
fetch yields the combiner's verdict on the fetched policies. -/
theorem c7_amended {Ctx Policy : Type}
    (g : Ctx → Except String String)
    (ge : String → String → String × String × Option String)
    (gp : String → String → Except String (List Policy))
    (cp : List Policy → CheckRequest → Status)
    (nn : String) (ctx : Ctx) (req : CheckRequest)
    (cid epn epns e : String)
    (hcid : g ctx = .ok cid)
    (hep : ge cid nn = (epn, epns, some e)) :
    (∀ e2, gp epn epns = .error e2 →
      Check g ge gp cp nn ctx req = (⟨⟨INTERNAL_CODE⟩⟩, none)) ∧
    (∀ ps, gp epn epns = .ok ps →
      Check g ge gp cp nn ctx req = (⟨cp ps req⟩, none)) := by
  constructor
  · intro e2 h
    simp [Check, hcid, hep, h]
  · intro ps h
    simp [Check, hcid, hep, h]

/-- Witness for C7: at the concrete collaborators, resolution fails, the
fetch succeeds with one policy, and the handler reports the combiner's
verdict on that list. -/
theorem c7_witness :
    Check g0 ge0 gp0 cp0 "node" () req0 = (⟨cp0 [()] req0⟩, none) :=
  (c7_amended g0 ge0 gp0 cp0 "node" () req0 "cid0" "" "" "resolve failed"
    rfl rfl).2 [()] rfl

/-- Claim C8: the matchers are total over every request shape — absent
attributes, peer, request or HTTP sections are handled by the nil-safe
accessors — and a matcher-level failure (an unparseable principal)
collapses to the boolean false; the handler always produces a structured
response with no transport error, for every collaborator behaviour. -/
theorem c8_total (lib : SelectorLib) (rule : Rule) (req : CheckRequest) :
    (parseSpiffeId (getPrincipal (getSource req.attributes)) = none →
      matchRule lib rule req = false) ∧
    (∀ (Ctx Policy : Type) (g : Ctx → Except String String)
      (ge : String → String → String × String × Option String)
      (gp : String → String → Except String (List Policy))
      (cp : List Policy → CheckRequest → Status) (nn : String) (ctx : Ctx),
      (Check g ge gp cp nn ctx req).2 = none) := by
  constructor
  · intro h
    simp [matchRule, matchPeer, matchServiceAccounts, h]
  · intro Ctx Policy g ge gp cp nn ctx
    rcases hg : g ctx with e | cid
    · simp [Check, hg]
    · rcases hge : ge cid nn with ⟨a, b, c⟩
      rcases hgp : gp a b with e2 | ps
      · simp [Check, hg, hge, hgp]
      · simp [Check, hg, hge, hgp]

/-- Witness for C8: an unparseable principal makes every rule a
non-match, and the handler still answers with a response and no error. -/
theorem c8_witness :
    matchRule trueLib ruleAll (reqOf badPeer) = false ∧
    (Check g0 ge0 gp0 cp0 "node" () (reqOf badPeer)).2 = none :=
  ⟨(c8_total trueLib ruleAll (reqOf badPeer)).1 (by decide),
   (c8_total trueLib ruleAll (reqOf badPeer)).2 Unit Unit g0 ge0 gp0 cp0 "node" ()⟩

/-- Claim C10: for every context, request and collaborator behaviour the
handler returns a response together with a nil transport error, and its
status is `INTERNAL` unless both the container lookup and the policy
fetch succeed, in which case it is the evaluation's verdict — so every
failure mode is reported solely through the status code. -/
theorem c10_check_contract {Ctx Policy : Type}
    (g : Ctx → Except String String)
    (ge : String → String → String × String × Option String)
    (gp : String → String → Except String (List Policy))
    (cp : List Policy → CheckRequest → Status)
    (nn : String) (ctx : Ctx) (req : CheckRequest) :
    (Check g ge gp cp nn ctx req).2 = none ∧
    ((Check g ge gp cp nn ctx req).1.status = ⟨INTERNAL_CODE⟩ ∨
      ∃ cid, g ctx = .ok cid ∧
        ∃ ps, gp (ge cid nn).1 (ge cid nn).2.1 = .ok ps ∧
          (Check g ge gp cp nn ctx req).1.status = cp ps req) := by
  rcases hg : g ctx with e | cid
  · exact ⟨by simp [Check, hg], Or.inl (by simp [Check, hg])⟩
  · rcases hge : ge cid nn with ⟨a, b, c⟩
    rcases hgp : gp a b with e2 | ps
    · exact ⟨by simp [Check, hg, hge, hgp], Or.inl (by simp [Check, hg, hge, hgp])⟩
    · refine ⟨by simp [Check, hg, hge, hgp], Or.inr ?_⟩
      exact ⟨cid, rfl, ps, by simp [hge, hgp], by simp [Check, hg, hge, hgp]⟩

end AppPolicy
